import Mathlib

set_option maxRecDepth 1000000

/-!
# Verification of the `swhid` SWHID computation library

Shallow embedding of the library's core pipeline: git-object hashing
(`src/hash.rs`), content digests (`src/content.rs`), the directory walk and
tree serialization (`src/directory.rs`), and the identifier grammar (the
`swhid` module is declared by `lib.rs` but its source file is absent, so the
parser and renderer are modelled from the specification).

Bytes are modelled as `Nat` (each `< 256` on real inputs), byte strings as
`List Nat`.  Rust `String` values are modelled by the list of bytes of their
UTF-8 encoding.
-/

namespace Swhid

/-! ## SHA-1 (the digest computed by the `sha1_checked` hasher in
`src/hash.rs`; the collision-detection side channel of that crate is not
modelled — `finalize()` in the source returns the digest unconditionally). -/

/-- Left-rotation of a 32-bit word, word arithmetic is `Nat` masked to 32 bits. -/
def rotl (k n : Nat) : Nat := ((n <<< k) ||| (n >>> (32 - k))) &&& 0xFFFFFFFF

/-- Big-endian bytes of a 32-bit word. -/
def be32 (n : Nat) : List Nat :=
  [(n >>> 24) &&& 255, (n >>> 16) &&& 255, (n >>> 8) &&& 255, n &&& 255]

/-- Big-endian bytes of a 64-bit word. -/
def be64 (n : Nat) : List Nat :=
  [(n >>> 56) &&& 255, (n >>> 48) &&& 255, (n >>> 40) &&& 255, (n >>> 32) &&& 255,
   (n >>> 24) &&& 255, (n >>> 16) &&& 255, (n >>> 8) &&& 255, n &&& 255]

/-- Group bytes into big-endian 32-bit words (input length is a multiple of 4). -/
def bytesToWords : List Nat → List Nat
  | a :: b :: c :: d :: rest =>
      ((((a <<< 8) ||| b) <<< 8 ||| c) <<< 8 ||| d) :: bytesToWords rest
  | _ => []

/-- Group a word list into 16-word blocks (input length is a multiple of 16). -/
def wordBlocks : List Nat → List (List Nat)
  | w0 :: w1 :: w2 :: w3 :: w4 :: w5 :: w6 :: w7 ::
    w8 :: w9 :: w10 :: w11 :: w12 :: w13 :: w14 :: w15 :: rest =>
      [w0, w1, w2, w3, w4, w5, w6, w7, w8, w9, w10, w11, w12, w13, w14, w15]
        :: wordBlocks rest
  | _ => []

/-- Merkle–Damgård padding: `0x80`, zeros to 56 mod 64, 64-bit bit length. -/
def sha1Pad (msg : List Nat) : List Nat :=
  msg ++ 0x80 :: (List.replicate ((120 - ((msg.length + 1) % 64)) % 64) 0
    ++ be64 (msg.length * 8))

/-- The five-word SHA-1 chaining state. -/
structure Sha1State where
  a : Nat
  b : Nat
  c : Nat
  d : Nat
  e : Nat
deriving Repr, DecidableEq

def sha1Init : Sha1State := ⟨0x67452301, 0xEFCDAB89, 0x98BADCFE, 0x10325476, 0xC3D2E1F0⟩

/-- Per-round boolean function (choice / parity / majority / parity). -/
def sha1F (i b c d : Nat) : Nat :=
  if i < 20 then (b &&& c) ||| ((b ^^^ 0xFFFFFFFF) &&& d)
  else if i < 40 then (b ^^^ c) ^^^ d
  else if i < 60 then ((b &&& c) ||| (b &&& d)) ||| (c &&& d)
  else (b ^^^ c) ^^^ d

/-- Per-round constant. -/
def sha1K (i : Nat) : Nat :=
  if i < 20 then 0x5A827999
  else if i < 40 then 0x6ED9EBA1
  else if i < 60 then 0x8F1BBCDC
  else 0xCA62C1D6

/-- Expand the 16 block words to the 80-word message schedule.  The
accumulator keeps the most recent word at the head. -/
def sha1Schedule (block : List Nat) : List Nat :=
  ((List.range 64).foldl
    (fun r _ =>
      rotl 1 (((r.getD 2 0) ^^^ (r.getD 7 0)) ^^^ ((r.getD 13 0) ^^^ (r.getD 15 0))) :: r)
    block.reverse).reverse

/-- One of the 80 compression rounds; `iw` is (round index, schedule word). -/
def sha1Round (s : Sha1State) (iw : Nat × Nat) : Sha1State :=
  ⟨(rotl 5 s.a + sha1F iw.1 s.b s.c s.d + s.e + sha1K iw.1 + iw.2) &&& 0xFFFFFFFF,
   s.a, rotl 30 s.b, s.c, s.d⟩

/-- Compress one 16-word block into the chaining state. -/
def processBlock (h : Sha1State) (block : List Nat) : Sha1State :=
  let s := ((sha1Schedule block).enum.foldl sha1Round h)
  ⟨(h.a + s.a) &&& 0xFFFFFFFF, (h.b + s.b) &&& 0xFFFFFFFF, (h.c + s.c) &&& 0xFFFFFFFF,
   (h.d + s.d) &&& 0xFFFFFFFF, (h.e + s.e) &&& 0xFFFFFFFF⟩

/-- SHA-1 digest (20 bytes) of a byte string. -/
def sha1 (msg : List Nat) : List Nat :=
  let fin := (wordBlocks (bytesToWords (sha1Pad msg))).foldl processBlock sha1Init
  be32 fin.a ++ be32 fin.b ++ be32 fin.c ++ be32 fin.d ++ be32 fin.e

/-! ## Git-object framing (src/hash.rs) -/

/-- Bytes of an ASCII string literal (only used for ASCII literals of the
source, where code points and UTF-8 bytes coincide). -/
def strBytes (s : String) : List Nat := s.data.map Char.toNat

/-- ASCII decimal digits of a natural number (fuel-indexed helper). -/
def decDigitsAux : Nat → Nat → List Nat
  | 0, _ => []
  | fuel + 1, n => if n < 10 then [48 + n] else decDigitsAux fuel (n / 10) ++ [48 + n % 10]

/-- ASCII decimal representation of a length, no leading zeros (`"0"` for zero). -/
def decBytes (n : Nat) : List Nat := decDigitsAux (n + 1) n

/-- Embedding of `git_object_header` of src/hash.rs: `"<type> <len>\0"`. -/
def gitObjectHeader (ty : List Nat) (len : Nat) : List Nat :=
  ty ++ 0x20 :: (decBytes len ++ [0])

/-- Embedding of `hash_git_object` of src/hash.rs: SHA-1 of header plus payload. -/
def hashGitObject (ty : List Nat) (data : List Nat) : List Nat :=
  sha1 (gitObjectHeader ty data.length ++ data)

/-- Embedding of `sha1_git_hash` of src/hash.rs: the git-blob digest of a byte string. -/
def sha1GitHash (data : List Nat) : List Nat :=
  sha1 (gitObjectHeader (strBytes "blob") data.length ++ data)

/-! ## Lossy UTF-8 decoding

`Directory::from_disk` captures filenames with `to_string_lossy()` and
symlink targets the same way, and `should_exclude` applies
`String::from_utf8_lossy` again.  We model the byte-level effect of Rust's
lossy conversion: valid UTF-8 sequences are copied verbatim, each maximal
subpart of an ill-formed sequence is replaced by U+FFFD (bytes
`EF BF BD`). -/

/-- UTF-8 continuation byte (`0x80..=0xBF`). -/
def utf8Cont (b : Nat) : Bool := 0x80 ≤ b && b ≤ 0xBF

/-- UTF-8 encoding of the replacement character U+FFFD. -/
def fffd : List Nat := [0xEF, 0xBF, 0xBD]

/-- One step of lossy decoding at byte `b` followed by `rest`: the emitted
bytes and the total number of input bytes consumed (at least one).  The
admissible ranges of the first continuation byte follow the UTF-8
well-formedness table (`E0` needs `A0..BF`, `ED` needs `80..9F`, `F0` needs
`90..BF`, `F4` needs `80..8F`). -/
def lossyStep (b : Nat) (rest : List Nat) : List Nat × Nat :=
  if b < 0x80 then ([b], 1)
  else if 0xC2 ≤ b && b ≤ 0xDF then
    match rest with
    | c1 :: _ => if utf8Cont c1 then ([b, c1], 2) else (fffd, 1)
    | [] => (fffd, 1)
  else if 0xE0 ≤ b && b ≤ 0xEF then
    let lo := if b = 0xE0 then 0xA0 else 0x80
    let hi := if b = 0xED then 0x9F else 0xBF
    match rest with
    | c1 :: c2 :: _ =>
        if lo ≤ c1 && c1 ≤ hi then
          if utf8Cont c2 then ([b, c1, c2], 3) else (fffd, 2)
        else (fffd, 1)
    | [c1] => if lo ≤ c1 && c1 ≤ hi then (fffd, 2) else (fffd, 1)
    | [] => (fffd, 1)
  else if 0xF0 ≤ b && b ≤ 0xF4 then
    let lo := if b = 0xF0 then 0x90 else 0x80
    let hi := if b = 0xF4 then 0x8F else 0xBF
    match rest with
    | c1 :: c2 :: c3 :: _ =>
        if lo ≤ c1 && c1 ≤ hi then
          if utf8Cont c2 then
            if utf8Cont c3 then ([b, c1, c2, c3], 4) else (fffd, 3)
          else (fffd, 2)
        else (fffd, 1)
    | [c1, c2] =>
        if lo ≤ c1 && c1 ≤ hi then
          if utf8Cont c2 then (fffd, 3) else (fffd, 2)
        else (fffd, 1)
    | [c1] => if lo ≤ c1 && c1 ≤ hi then (fffd, 2) else (fffd, 1)
    | [] => (fffd, 1)
  else (fffd, 1)

/-- Fuel-indexed driver for lossy decoding; each step consumes at least one
byte, so fuel equal to the input length suffices. -/
def lossyGo : Nat → List Nat → List Nat
  | 0, _ => []
  | _, [] => []
  | fuel + 1, b :: rest =>
      let s := lossyStep b rest
      s.1 ++ lossyGo fuel (List.drop (s.2 - 1) rest)

/-- Bytes of `String::from_utf8_lossy` (equally, of `to_string_lossy`)
applied to a byte string. -/
def lossyBytes (l : List Nat) : List Nat := lossyGo l.length l

/-! ## Directory model (src/directory.rs) -/

/-- The `EntryType` enum of src/directory.rs. -/
inductive EntryType where
  | File
  | Directory
  | Symlink
deriving DecidableEq, Repr

/-- The `Permissions` enum of src/directory.rs (git-style mode constants). -/
inductive Permissions where
  | File
  | Executable
  | Symlink
  | Directory
deriving DecidableEq, Repr

/-- Embedding of `Permissions::from_mode`: dispatch on the file-type bits
`mode & 0o170000`, falling back to the execute bits `mode & 0o111`. -/
def Permissions.fromMode (mode : Nat) : Permissions :=
  if mode &&& 0o170000 = 0o040000 then .Directory
  else if mode &&& 0o170000 = 0o120000 then .Symlink
  else if mode &&& 0o111 ≠ 0 then .Executable
  else .File

/-- Embedding of `Permissions::as_octal`: the numeric value of each variant. -/
def Permissions.asOctal : Permissions → Nat
  | .File => 0o100644
  | .Executable => 0o100755
  | .Symlink => 0o120000
  | .Directory => 0o040000

/-- The `DirectoryEntry` struct of src/directory.rs. -/
structure DirectoryEntry where
  name : List Nat
  entry_type : EntryType
  permissions : Permissions
  target : List Nat
deriving DecidableEq, Repr

/-- The `Directory` struct of src/directory.rs.  The `hash` memo field and the `path`
field are omitted: the memo caches `compute_hash` and the path never enters
any payload. -/
structure Directory where
  entries : List DirectoryEntry
deriving DecidableEq, Repr

/-- The error variants of `SwhidError` (src/error.rs) that the embedded
operations can mention; message payloads are elided. -/
inductive SwhidError where
  | Io
  | InvalidFormat
  | InvalidNamespace
  | InvalidVersion
  | InvalidObjectType
  | InvalidHash
  | InvalidHashLength
  | DuplicateEntry
  | InvalidInput
deriving DecidableEq, Repr

/-- Decidable equality on `Except`, so that results of embedded fallible
operations can be compared by evaluation. -/
instance {ε α : Type} [DecidableEq ε] [DecidableEq α] : DecidableEq (Except ε α) := fun x y =>
  match x, y with
  | .ok a, .ok b =>
      if h : a = b then .isTrue (by rw [h])
      else .isFalse (by intro hh; cases hh; exact h rfl)
  | .error a, .error b =>
      if h : a = b then .isTrue (by rw [h])
      else .isFalse (by intro hh; cases hh; exact h rfl)
  | .ok _, .error _ => .isFalse (by intro hh; cases hh)
  | .error _, .ok _ => .isFalse (by intro hh; cases hh)

/-- Embedding of `should_exclude_str` of src/directory.rs: the loop returns true exactly
when the name equals one of the patterns (exact match; the source's comment
promises fnmatch-style globbing but the body compares for equality). -/
def should_exclude_str (name : List Nat) (patterns : List (List Nat)) : Bool :=
  patterns.any (fun p => name == p)

/-- Embedding of `Directory::should_exclude`: lossily decode the name, then match. -/
def should_exclude (name : List Nat) (patterns : List (List Nat)) : Bool :=
  should_exclude_str (lossyBytes name) patterns

/-- A snapshot of the filesystem subtree being walked.  `DirEntry::metadata`
does not traverse symlinks, so each node carries its lstat mode; a symlink
carries the result of `fs::read_link` (`none` models a failing read, the
case the source skips). -/
inductive FsNode where
  | file (mode : Nat) (data : List Nat)
  | dir (mode : Nat) (children : List (List Nat × FsNode))
  | symlink (mode : Nat) (target : Option (List Nat))

/-- Byte-string comparison, the `Ord` of both `OsString` and `Vec<u8>`. -/
def listCmp : List Nat → List Nat → Ordering
  | [], [] => .eq
  | [], _ :: _ => .lt
  | _ :: _, [] => .gt
  | a :: xs, b :: ys => if a < b then .lt else if b < a then .gt else listCmp xs ys

/-- Stable insertion of `x` into a sorted list (goes past strictly smaller
elements, lands before equal ones inserted earlier in source order). -/
def insertOrd (cmp : α → α → Ordering) (x : α) : List α → List α
  | [] => [x]
  | y :: ys => if cmp x y = .gt then y :: insertOrd cmp x ys else x :: y :: ys

/-- Stable comparison sort, the model of `slice::sort_by`. -/
def sortByOrd (cmp : α → α → Ordering) : List α → List α
  | [] => []
  | x :: xs => insertOrd cmp x (sortByOrd cmp xs)

/-- The all-zero placeholder digest stored for subdirectory entries before
their recursive hash is computed. -/
def zeros20 : List Nat := List.replicate 20 0

/-- The per-child body of the loop in `Directory::from_disk` (lines
112–158): capture the lossy name bytes, apply the exclusion filter,
classify by (lstat) metadata, and compute the target digest.  `ok none`
models `continue` (exclusion or a failing `read_link`); subdirectories get
the placeholder digest. -/
def processChild (patterns : List (List Nat)) (child : List Nat × FsNode) :
    Except SwhidError (Option DirectoryEntry) :=
  let nameBytes := lossyBytes child.1
  if should_exclude nameBytes patterns then .ok none
  else
    match child.2 with
    | .file mode data =>
        .ok (some ⟨nameBytes, .File, .fromMode mode, sha1GitHash data⟩)
    | .symlink mode tgt =>
        match tgt with
        | some t => .ok (some ⟨nameBytes, .Symlink, .fromMode mode, sha1GitHash (lossyBytes t)⟩)
        | none => .ok none
    | .dir mode _ =>
        .ok (some ⟨nameBytes, .Directory, .fromMode mode, zeros20⟩)

/-- Run `processChild` over the listed children in order, keeping the
produced entries and stopping at the first error. -/
def collectEntries (patterns : List (List Nat)) :
    List (List Nat × FsNode) → Except SwhidError (List DirectoryEntry)
  | [] => .ok []
  | c :: cs => do
      let o ← processChild patterns c
      let rest ← collectEntries patterns cs
      match o with
      | some e => .ok (e :: rest)
      | none => .ok rest

/-- Filesystem lookup of a child by exact name bytes, the effect of
`path.join(OsStr::from_bytes(&entry.name))` followed by `read_dir`. -/
def lookupChild (children : List (List Nat × FsNode)) (name : List Nat) : Option FsNode :=
  (children.find? (fun c => c.1 == name)).map (fun c => c.2)

/-- The mode strings of `Directory::compute_hash` (git quirk: no leading
zero on the directory mode). -/
def permsStr : Permissions → List Nat
  | .File => strBytes "100644"
  | .Executable => strBytes "100755"
  | .Symlink => strBytes "120000"
  | .Directory => strBytes "40000"

/-- The tree payload built by `Directory::compute_hash`:
for each entry, mode string, space, name, NUL, target digest. -/
def treeComponents (entries : List DirectoryEntry) : List Nat :=
  entries.foldl (fun acc e => acc ++ permsStr e.permissions ++ [0x20] ++ e.name ++ [0] ++ e.target) []

/-- Embedding of `Directory::compute_hash` (modulo the memo field): hash the tree payload
as a git `tree` object. -/
def Directory.compute_hash (d : Directory) : List Nat :=
  hashGitObject (strBytes "tree") (treeComponents d.entries)

/-- The post-sort fixup loop of `Directory::from_disk` (lines 164–171):
re-resolve each subdirectory entry by name, build it recursively (`recurse`
is `from_disk` at the remaining fuel) and replace the placeholder digest by
the child's `compute_hash`.  A failed lookup models `read_dir` failing on
the joined path. -/
def resolveDirs (recurse : FsNode → Except SwhidError Directory)
    (children : List (List Nat × FsNode)) :
    List DirectoryEntry → Except SwhidError (List DirectoryEntry)
  | [] => .ok []
  | e :: es =>
      if e.entry_type = .Directory then
        match lookupChild children e.name with
        | some child => do
            let d ← recurse child
            let rest ← resolveDirs recurse children es
            .ok ({ e with target := d.compute_hash } :: rest)
        | none => .error .Io
      else do
        let rest ← resolveDirs recurse children es
        .ok (e :: rest)

/-- Embedding of `Directory::from_disk`, fuel-indexed (the fuel bounds the recursion
depth; any fuel larger than the tree height gives the function's value).
Steps: list the children sorted by raw name, run the per-child loop, sort
the entries by name bytes (`entries.sort_by(|a, b| a.name.cmp(&b.name))`),
then resolve subdirectory digests recursively.  `read_dir` on a non-directory
node fails with an I/O error. -/
def from_disk : Nat → FsNode → List (List Nat) → Bool → Except SwhidError Directory
  | 0, _, _, _ => .error .Io
  | fuel + 1, node, patterns, follow =>
      match node with
      | .dir _ children => do
          let collected ← collectEntries patterns
            (sortByOrd (fun a b => listCmp a.1 b.1) children)
          let sorted := sortByOrd (fun a b => listCmp a.name b.name) collected
          let resolved ← resolveDirs
            (fun child => from_disk fuel child patterns follow) children sorted
          .ok ⟨resolved⟩
      | _ => .error .Io

/-! ## Identifier grammar

`lib.rs` declares `pub mod swhid` and re-exports `Swhid` and `ObjectType`,
but the file `src/swhid.rs` itself is not part of the sources at hand, so
the parser and renderer below are modelled from the specification (§4.2):
grammar `swh:1:<kind>:<hex40>`, splitting on `:` into exactly four fields,
strict lowercase hex, the error taxonomy of §7. -/

/-- Modelled from the spec: the object kinds of the identifier grammar
(`cnt`, `dir`, `rev`, `rel`, `snp`); `src/swhid.rs` is missing from the
sources. -/
inductive ObjectType where
  | Content
  | Directory
  | Revision
  | Release
  | Snapshot
deriving DecidableEq, Repr

/-- Modelled from the spec: the three-letter code of each object kind. -/
def ObjectType.code : ObjectType → List Char
  | .Content => "cnt".data
  | .Directory => "dir".data
  | .Revision => "rev".data
  | .Release => "rel".data
  | .Snapshot => "snp".data

/-- Modelled from the spec: recognize a kind code (closed set, case
sensitive). -/
def parseKind (s : List Char) : Option ObjectType :=
  if s = "cnt".data then some .Content
  else if s = "dir".data then some .Directory
  else if s = "rev".data then some .Revision
  else if s = "rel".data then some .Release
  else if s = "snp".data then some .Snapshot
  else none

/-- Modelled from the spec: an identifier is the triple (version, kind,
digest) with the version fixed at `1`, so only the kind and the 20 digest
bytes are carried; `src/swhid.rs` is missing from the sources. -/
structure Identifier where
  kind : ObjectType
  digest : List Nat
deriving DecidableEq, Repr

/-- A well-formed identifier value: exactly 20 digest bytes, each a byte. -/
def validId (i : Identifier) : Prop :=
  i.digest.length = 20 ∧ ∀ b ∈ i.digest, b < 256

instance (i : Identifier) : Decidable (validId i) := by
  unfold validId; infer_instance

/-- Lowercase hex digit of a value below 16. -/
def hexChar (n : Nat) : Char :=
  if n < 10 then Char.ofNat (48 + n) else Char.ofNat (87 + n)

/-- Lowercase hex rendering of a byte string, two digits per byte. -/
def hexEncode : List Nat → List Char
  | [] => []
  | b :: bs => hexChar (b / 16) :: hexChar (b % 16) :: hexEncode bs

/-- Value of a hex digit, lowercase only (parsing is strict). -/
def hexVal (c : Char) : Option Nat :=
  if 48 ≤ c.toNat ∧ c.toNat ≤ 57 then some (c.toNat - 48)
  else if 97 ≤ c.toNat ∧ c.toNat ≤ 102 then some (c.toNat - 87)
  else none

/-- Decode an even-length hex string to bytes; fails on a stray digit or a
character outside `[0-9a-f]`. -/
def hexDecode : List Char → Option (List Nat)
  | [] => some []
  | c1 :: c2 :: rest => do
      let h ← hexVal c1
      let l ← hexVal c2
      let t ← hexDecode rest
      some ((16 * h + l) :: t)
  | [_] => none

/-- Split a character list on `:` (like `str::split(':')`, the number of
fields is one more than the number of colons). -/
def splitOnColon : List Char → List (List Char)
  | [] => [[]]
  | c :: rest =>
      if c = ':' then [] :: splitOnColon rest
      else
        match splitOnColon rest with
        | r :: rs => (c :: r) :: rs
        | [] => [[c]]

/-- Join fields with `:`, the left inverse of `splitOnColon`. -/
def joinColon : List (List Char) → List Char
  | [] => []
  | [x] => x
  | x :: xs => x ++ ':' :: joinColon xs

/-- Modelled from the spec: `parse` splits on `:` into exactly four fields
and validates namespace `swh`, version `1`, the kind code, and the
40-character lowercase-hex digest, with the error kinds of §4.2/§7;
`src/swhid.rs` is missing from the sources. -/
def parse (s : List Char) : Except SwhidError Identifier :=
  match splitOnColon s with
  | [ns, ver, kd, hx] =>
      if ns ≠ "swh".data then .error .InvalidNamespace
      else if ver ≠ "1".data then .error .InvalidVersion
      else
        match parseKind kd with
        | none => .error .InvalidObjectType
        | some k =>
            if hx.length ≠ 40 then .error .InvalidHashLength
            else
              match hexDecode hx with
              | none => .error .InvalidHash
              | some d => .ok ⟨k, d⟩
  | _ => .error .InvalidFormat

/-- Modelled from the spec: `render` produces the canonical string
`swh:1:<code>:<40-lowercase-hex>`; `src/swhid.rs` is missing from the
sources. -/
def render (i : Identifier) : List Char :=
  joinColon ["swh".data, "1".data, i.kind.code, hexEncode i.digest]

/-! ## Grammar lemmas -/

/-- Splitting never yields an empty field list. -/
theorem splitOnColon_ne_nil (l : List Char) : splitOnColon l ≠ [] := by
  cases l with
  | nil => simp [splitOnColon]
  | cons c rest =>
      simp only [splitOnColon]
      split_ifs
      · simp
      · split <;> simp

/-- Joining undoes splitting. -/
theorem joinColon_splitOnColon (s : List Char) : joinColon (splitOnColon s) = s := by
  induction s with
  | nil => rfl
  | cons c rest ih =>
      simp only [splitOnColon]
      by_cases hc : c = ':'
      · rw [if_pos hc]
        cases h : splitOnColon rest with
        | nil => exact absurd h (splitOnColon_ne_nil rest)
        | cons r rs =>
            rw [h] at ih
            subst hc
            simpa [joinColon] using ih
      · rw [if_neg hc]
        cases h : splitOnColon rest with
        | nil => exact absurd h (splitOnColon_ne_nil rest)
        | cons r rs =>
            rw [h] at ih
            cases rs with
            | nil => simpa [joinColon] using congrArg (c :: ·) ih
            | cons r2 rs2 => simpa [joinColon] using congrArg (c :: ·) ih

/-- Splitting at the first colon after a colon-free prefix. -/
theorem splitOnColon_append (a b : List Char) (h : ∀ c ∈ a, c ≠ ':') :
    splitOnColon (a ++ ':' :: b) = a :: splitOnColon b := by
  induction a with
  | nil => simp [splitOnColon]
  | cons x xs ih =>
      have hx : x ≠ ':' := h x (by simp)
      simp only [List.cons_append, splitOnColon, if_neg hx, List.append_eq]
      rw [ih (fun c hc => h c (by simp [hc]))]

/-- A colon-free string splits into a single field. -/
theorem splitOnColon_no_colon (l : List Char) (h : ∀ c ∈ l, c ≠ ':') :
    splitOnColon l = [l] := by
  induction l with
  | nil => rfl
  | cons x xs ih =>
      have hx : x ≠ ':' := h x (by simp)
      simp only [splitOnColon, if_neg hx]
      rw [ih (fun c hc => h c (by simp [hc]))]

/-- Encoding then decoding a hex digit value is the identity. -/
theorem hexVal_hexChar : ∀ n, n < 16 → hexVal (hexChar n) = some n := by decide

/-- Hex digits are never a colon. -/
theorem hexChar_ne_colon : ∀ n, n < 16 → hexChar n ≠ ':' := by decide

/-- Kind codes are colon-free. -/
theorem code_no_colon (k : ObjectType) : ∀ c ∈ ObjectType.code k, c ≠ ':' := by
  cases k <;> decide

/-- Hex renderings of byte strings are colon-free. -/
theorem hexEncode_no_colon (d : List Nat) (h : ∀ b ∈ d, b < 256) :
    ∀ c ∈ hexEncode d, c ≠ ':' := by
  induction d with
  | nil => simp [hexEncode]
  | cons b bs ih =>
      intro c hc
      have hb : b < 256 := h b (by simp)
      simp only [hexEncode, List.mem_cons] at hc
      rcases hc with rfl | rfl | hc
      · exact hexChar_ne_colon (b / 16) (by omega)
      · exact hexChar_ne_colon (b % 16) (by omega)
      · exact ih (fun x hx => h x (by simp [hx])) c hc

/-- Two hex digits per byte. -/
theorem hexEncode_length (d : List Nat) : (hexEncode d).length = 2 * d.length := by
  induction d with
  | nil => rfl
  | cons b bs ih => simp [hexEncode, ih]; omega

/-- Decoding inverts encoding on byte strings. -/
theorem hexDecode_hexEncode : ∀ d, (∀ b ∈ d, b < 256) → hexDecode (hexEncode d) = some d
  | [], _ => rfl
  | b :: bs, h => by
      have hb : b < 256 := h b (by simp)
      have h1 : hexVal (hexChar (b / 16)) = some (b / 16) := hexVal_hexChar _ (by omega)
      have h2 : hexVal (hexChar (b % 16)) = some (b % 16) := hexVal_hexChar _ (by omega)
      have h3 := hexDecode_hexEncode bs (fun x hx => h x (by simp [hx]))
      simp [hexEncode, hexDecode, h1, h2, h3, Nat.div_add_mod]

/-- A successfully decoded digit pins down the character (strict lowercase). -/
theorem hexVal_some (c : Char) (n : Nat) (h : hexVal c = some n) :
    n < 16 ∧ hexChar n = c := by
  unfold hexVal at h
  split_ifs at h with h1 h2
  · obtain rfl : c.toNat - 48 = n := by injection h
    refine ⟨by omega, ?_⟩
    unfold hexChar
    rw [if_pos (by omega)]
    have : 48 + (c.toNat - 48) = c.toNat := by omega
    rw [this, Char.ofNat_toNat]
  · obtain rfl : c.toNat - 87 = n := by injection h
    refine ⟨by omega, ?_⟩
    unfold hexChar
    rw [if_neg (by omega)]
    have : 87 + (c.toNat - 87) = c.toNat := by omega
    rw [this, Char.ofNat_toNat]

/-- Encoding inverts decoding on hex strings. -/
theorem hexEncode_hexDecode : ∀ (hx : List Char) (d : List Nat),
    hexDecode hx = some d → hexEncode d = hx
  | [], d, h => by
      obtain rfl : [] = d := by simpa [hexDecode] using h
      rfl
  | [c], d, h => by simp [hexDecode] at h
  | c1 :: c2 :: rest, d, h => by
      simp only [hexDecode, Option.bind_eq_bind] at h
      cases hv1 : hexVal c1 with
      | none => rw [hv1] at h; simp at h
      | some hh =>
          cases hv2 : hexVal c2 with
          | none => rw [hv1, hv2] at h; simp at h
          | some ll =>
              cases hd : hexDecode rest with
              | none => rw [hv1, hv2, hd] at h; simp at h
              | some t =>
                  rw [hv1, hv2, hd] at h
                  simp only [Option.some_bind, Option.some.injEq] at h
                  subst h
                  obtain ⟨hh16, hc1⟩ := hexVal_some c1 hh hv1
                  obtain ⟨ll16, hc2⟩ := hexVal_some c2 ll hv2
                  have e1 : (16 * hh + ll) / 16 = hh := by omega
                  have e2 : (16 * hh + ll) % 16 = ll := by omega
                  simp [hexEncode, e1, e2, hc1, hc2, hexEncode_hexDecode rest t hd]

/-- A successfully recognized kind code pins down the field. -/
theorem parseKind_code (kd : List Char) (k : ObjectType) (h : parseKind kd = some k) :
    kd = ObjectType.code k := by
  unfold parseKind at h
  split_ifs at h with h1 h2 h3 h4 h5 <;>
    (obtain rfl := Option.some.inj h; assumption)

/-- Recognizing a kind's own code gives the kind back. -/
theorem parseKind_code_inv (k : ObjectType) : parseKind (ObjectType.code k) = some k := by
  cases k <;> decide

/-! ## Theorems -/

/-- C1: `Directory::from_disk` sorts entries by plain byte-wise name
comparison, not by the git tree comparator.  On a directory holding a
subdirectory `dir` and a regular file `dir.txt`, the serialized order is
`dir` first — the claimed comparator (append `/` to subdirectory names)
would put `dir.txt` first, since `dir/` compares greater than `dir.txt`
(second conjunct). -/
theorem from_disk_orders_dir_before_dirtxt :
    (from_disk 2 (.dir 0o040755
        [(strBytes "dir.txt", .file 0o100644 []), (strBytes "dir", .dir 0o040755 [])])
        [] true).map (fun d => d.entries.map DirectoryEntry.name) =
      .ok [strBytes "dir", strBytes "dir.txt"] ∧
    listCmp (strBytes "dir" ++ [0x2F]) (strBytes "dir.txt") = .gt := by
  decide

/-- C2: a directory walk that yields two children with identical captured
name bytes (two distinct non-UTF-8 filenames `FF` and `FE`, both lossily
decoded to U+FFFD) succeeds and returns a directory with two entries
sharing one name; no `DuplicateEntry` error is ever raised. -/
theorem from_disk_accepts_duplicate_names :
    (from_disk 2 (.dir 0o040755
        [([0xFF], .file 0o100644 []), ([0xFE], .file 0o100644 [])])
        [] true).map (fun d => d.entries.map DirectoryEntry.name) =
      .ok [[0xEF, 0xBF, 0xBD], [0xEF, 0xBF, 0xBD]] := by
  decide

/-- C3: the name bytes stored for a child are `to_string_lossy` output, not
the raw on-disk bytes: a file named `FF` (invalid UTF-8) is recorded under
the replacement-character bytes `EF BF BD`. -/
theorem from_disk_transcodes_non_utf8_names :
    (from_disk 2 (.dir 0o040755 [([0xFF], .file 0o100644 [])])
        [] true).map (fun d => d.entries.map DirectoryEntry.name) =
      .ok [[0xEF, 0xBF, 0xBD]] ∧
    [0xEF, 0xBF, 0xBD] ≠ [0xFF] := by
  decide

/-- C4: the exclusion matcher is exact string equality, not shell globbing:
`a.log` is not excluded by the pattern `*.log` (a literal `*.log` name
would be). -/
theorem exclusion_is_exact_match_not_glob :
    should_exclude_str (strBytes "a.log") [strBytes "*.log"] = false ∧
    should_exclude (strBytes "a.log") [strBytes "*.log"] = false ∧
    should_exclude_str (strBytes "*.log") [strBytes "*.log"] = true := by
  decide

/-- Unfolding the payload accumulator of `compute_hash` into one record per
entry. -/
theorem treeComponents_foldl (es : List DirectoryEntry) (acc : List Nat) :
    es.foldl (fun acc e => acc ++ permsStr e.permissions ++ [0x20] ++ e.name ++ [0] ++ e.target) acc
      = acc ++ (es.map (fun e => permsStr e.permissions ++ [0x20] ++ e.name ++ [0] ++ e.target)).flatten := by
  induction es generalizing acc with
  | nil => simp
  | cons e es ih =>
      rw [List.foldl_cons, ih]
      simp [List.append_assoc]

/-- C5: the tree payload is the concatenation, in entry order, of records
`mode-ASCII ‖ SP ‖ name ‖ NUL ‖ target`, with the mode strings `100644`,
`100755`, `120000`, and `40000` (no leading zero). -/
theorem tree_payload_record_format (d : Directory) :
    d.compute_hash = hashGitObject (strBytes "tree") (treeComponents d.entries) ∧
    treeComponents d.entries =
      (d.entries.map (fun e => permsStr e.permissions ++ [0x20] ++ e.name ++ [0] ++ e.target)).flatten ∧
    permsStr .File = strBytes "100644" ∧
    permsStr .Executable = strBytes "100755" ∧
    permsStr .Symlink = strBytes "120000" ∧
    permsStr .Directory = strBytes "40000" := by
  refine ⟨rfl, ?_, by decide, by decide, by decide, by decide⟩
  unfold treeComponents
  rw [treeComponents_foldl]
  simp

/-- C6: the embedded hashing operation is infallible — it produces a
20-byte digest on every input and has no error outcome (the source's
`hash_git_object` returns `[u8; 20]`, never `SwhidError::InvalidInput`). -/
theorem hash_git_object_never_fails (ty data : List Nat) :
    (hashGitObject ty data).length = 20 := by
  unfold hashGitObject sha1
  simp [be32]

/-- C7: a symlink child whose link target is readable contributes an entry
whose target digest is the git-blob digest of the link-target path bytes;
a symlink whose target cannot be read is skipped without an error. -/
theorem from_disk_symlink_target_digest (patterns : List (List Nat))
    (name t : List Nat) (mode : Nat)
    (h : should_exclude (lossyBytes name) patterns = false) :
    processChild patterns (name, .symlink mode (some t)) =
      .ok (some ⟨lossyBytes name, .Symlink, .fromMode mode, sha1GitHash (lossyBytes t)⟩) ∧
    processChild patterns (name, .symlink mode none) = .ok none := by
  unfold processChild
  simp [h]

/-- Witness for C7 at the spec's own example: `link → target.txt`. -/
theorem from_disk_symlink_target_digest_witness :
    should_exclude (lossyBytes (strBytes "link")) [] = false ∧
    processChild [] (strBytes "link", .symlink 0o120777 (some (strBytes "target.txt"))) =
      .ok (some ⟨lossyBytes (strBytes "link"), .Symlink, .fromMode 0o120777,
        sha1GitHash (lossyBytes (strBytes "target.txt"))⟩) ∧
    processChild [] (strBytes "link", .symlink 0o120777 none) = .ok none := by
  have h : should_exclude (lossyBytes (strBytes "link")) [] = false := by decide
  exact ⟨h,
    (from_disk_symlink_target_digest [] (strBytes "link") (strBytes "target.txt") 0o120777 h).1,
    (from_disk_symlink_target_digest [] (strBytes "link") (strBytes "target.txt") 0o120777 h).2⟩

/-- C9: a directory with no included entries hashes to the git empty-tree
digest `4b825dc642cb6eb9a060e54bf8d69288fbee4904` — both for a literally
empty entry list and for a walk whose only child is excluded. -/
theorem empty_directory_tree_digest :
    Directory.compute_hash ⟨[]⟩ =
      [0x4b, 0x82, 0x5d, 0xc6, 0x42, 0xcb, 0x6e, 0xb9, 0xa0, 0x60,
       0xe5, 0x4b, 0xf8, 0xd6, 0x92, 0x88, 0xfb, 0xee, 0x49, 0x04] ∧
    (from_disk 1 (.dir 0o040755 [(strBytes "x", .file 0o100644 [])])
        [strBytes "x"] true).map Directory.compute_hash =
      .ok [0x4b, 0x82, 0x5d, 0xc6, 0x42, 0xcb, 0x6e, 0xb9, 0xa0, 0x60,
        0xe5, 0x4b, 0xf8, 0xd6, 0x92, 0x88, 0xfb, 0xee, 0x49, 0x04] := by
  decide

/-- C10: `Permissions::from_mode` classifies by the file-type bits — result
`Directory` iff `mode & 0o170000 = 0o040000`, `Symlink` iff that masked
value is `0o120000`, and for every other type bit pattern `Executable` or
`File` according to `mode & 0o111`; a special file (e.g. a FIFO, type bits
`0o010000`) is therefore walked as a regular file, not rejected. -/
theorem fromMode_classification :
    (∀ m : Nat,
      (Permissions.fromMode m = .Directory ↔ m &&& 0o170000 = 0o040000) ∧
      (Permissions.fromMode m = .Symlink ↔ m &&& 0o170000 = 0o120000) ∧
      (Permissions.fromMode m = .Executable ↔
        (m &&& 0o170000 ≠ 0o040000 ∧ m &&& 0o170000 ≠ 0o120000 ∧ m &&& 0o111 ≠ 0)) ∧
      (Permissions.fromMode m = .File ↔
        (m &&& 0o170000 ≠ 0o040000 ∧ m &&& 0o170000 ≠ 0o120000 ∧ m &&& 0o111 = 0))) ∧
    processChild [] ([0x66], .file 0o010644 [0x78]) =
      .ok (some ⟨[0x66], .File, .File, sha1GitHash [0x78]⟩) := by
  constructor
  · intro m
    unfold Permissions.fromMode
    split_ifs with h1 h2 h3 <;> simp_all
  · decide

/-- C8: render after parse is the identity on strings the parser accepts,
and parse after render is the identity on well-formed identifiers. -/
theorem parse_render_roundtrip :
    (∀ (s : List Char) (i : Identifier), parse s = .ok i → render i = s) ∧
    (∀ i : Identifier, validId i → parse (render i) = .ok i) := by
  constructor
  · intro s i hp
    unfold parse at hp
    split at hp
    · rename_i ns ver kd hx heq
      split_ifs at hp with h1 h2 h3
      · split at hp
        · exact absurd hp (by simp)
        · exact absurd hp (by simp)
      · split at hp
        · exact absurd hp (by simp)
        · rename_i k heqk
          split at hp
          · exact absurd hp (by simp)
          · rename_i d heqd
            obtain rfl := Except.ok.inj hp
            rw [not_not] at h1 h2
            have hs : joinColon (splitOnColon s) = s := joinColon_splitOnColon s
            rw [heq] at hs
            rw [← hs, h1, h2, parseKind_code kd k heqk,
              ← hexEncode_hexDecode hx d heqd]
            rfl
    · exact absurd hp (by simp)
  · intro i hv
    obtain ⟨k, d⟩ := i
    unfold validId at hv
    obtain ⟨hlen, hb⟩ := hv
    have hsplit : splitOnColon (render ⟨k, d⟩) =
        ["swh".data, "1".data, ObjectType.code k, hexEncode d] := by
      show splitOnColon
        ("swh".data ++ ':' :: ("1".data ++ ':' :: (ObjectType.code k ++ ':' :: hexEncode d))) = _
      rw [splitOnColon_append _ _ (by decide)]
      rw [splitOnColon_append _ _ (by decide)]
      rw [splitOnColon_append _ _ (code_no_colon k)]
      rw [splitOnColon_no_colon _ (hexEncode_no_colon d hb)]
    unfold parse
    rw [hsplit]
    simp [parseKind_code_inv, hexEncode_length, hlen, hexDecode_hexEncode d hb]

/-- Witness for C8 at `swh:1:cnt:0000…0000`, exercising both directions. -/
theorem parse_render_roundtrip_witness :
    validId ⟨.Content, List.replicate 20 0⟩ ∧
    parse (render ⟨.Content, List.replicate 20 0⟩) = .ok ⟨.Content, List.replicate 20 0⟩ ∧
    render ⟨.Content, List.replicate 20 0⟩ =
      "swh:1:cnt:0000000000000000000000000000000000000000".data := by
  refine ⟨by decide, parse_render_roundtrip.2 _ (by decide),
    parse_render_roundtrip.1 _ _ (by decide)⟩

end Swhid
